import Mathlib

/-!
Verification of the hollow-sphere ASCII renderer (src/hollow-sphere-ascii.cpp).

Embedding conventions:
* C++ `float` arithmetic is modelled exactly: the canvas / projection pipeline
  over `ℚ` (all its operations are rational), the rotation math over `ℝ`.
  Decimal literals such as `0.005f` are modelled by the rationals they denote.
* `sin`/`cos` of an angle are passed to the rotation functions as precomputed
  values (`sinα cosα …`), so the definitions stay computable; the theorems
  instantiate them with `Real.sin`/`Real.cos` of the angle.
* The two global arrays `frameBuffer`/`depthBuffer` of size `SCREEN_SIZE`
  become a `Canvas` structure of two functions on `Nat`; every mutation is
  guarded by the code's own bounds check, so no out-of-range index is written.
* `static_cast<int>` applied to a float value truncates toward zero; it is
  modelled by `truncQ`.
-/

namespace HollowSphere

/-- `constexpr int SCREEN_WIDTH = 150;` -/
def SCREEN_WIDTH : Nat := 150

/-- `constexpr int SCREEN_HEIGHT = 50;` -/
def SCREEN_HEIGHT : Nat := 50

/-- `constexpr int SCREEN_SIZE = SCREEN_WIDTH * SCREEN_HEIGHT;` -/
def SCREEN_SIZE : Nat := SCREEN_WIDTH * SCREEN_HEIGHT

/-- `constexpr int SCREEN_DISTANCE = 35;` (used only in float expressions). -/
def SCREEN_DISTANCE : ℚ := 35

/-- `constexpr float X_OFFSET = SCREEN_WIDTH / 2.0f;` -/
def X_OFFSET : ℚ := (SCREEN_WIDTH : ℚ) / 2

/-- `constexpr float Y_OFFSET = SCREEN_HEIGHT / 2.0f;` -/
def Y_OFFSET : ℚ := (SCREEN_HEIGHT : ℚ) / 2

/-- `constexpr float Z_OFFSET = 20.0f;` -/
def Z_OFFSET : ℚ := 20

/-- `constexpr float RADIUS = 10.0f;` -/
def RADIUS : ℚ := 10

/-- `constexpr float PITCH_DELTA = 0.005f;` -/
def PITCH_DELTA : ℚ := 0.005

/-- `constexpr float YAW_DELTA = 0.005f;` -/
def YAW_DELTA : ℚ := 0.005

/-- `constexpr float ROLL_DELTA = 0.001f;` -/
def ROLL_DELTA : ℚ := 0.001

/-- `struct Vertex { float x, y, z; };` over a coordinate type `R`. -/
structure Vertex (R : Type) where
  x : R
  y : R
  z : R
deriving DecidableEq

/-- The three animation-angle globals `pitch`, `yaw`, `roll`. -/
structure Angles where
  pitch : ℚ
  yaw : ℚ
  roll : ℚ
deriving DecidableEq

/-- `updateAngles`: each accumulator is incremented by its fixed delta. -/
def updateAngles (a : Angles) : Angles :=
  { pitch := a.pitch + PITCH_DELTA
    yaw := a.yaw + YAW_DELTA
    roll := a.roll + ROLL_DELTA }

section Rotation

variable {R : Type} [CommRing R]

/-- `rotateCalcX`: x-row of the combined rotation, with the sines and cosines
of `alpha`, `beta`, `gamma` passed as precomputed values. -/
def rotateCalcX (v : Vertex R) (sinα cosα sinβ cosβ sinγ cosγ : R) : R :=
  v.x * cosγ * cosβ
    + v.y * (cosγ * sinβ * sinα - sinγ * cosα)
    + v.z * (sinγ * sinα + cosγ * sinβ * cosα)

/-- `rotateCalcY`: y-row of the combined rotation. -/
def rotateCalcY (v : Vertex R) (sinα cosα sinβ cosβ sinγ cosγ : R) : R :=
  v.x * sinγ * cosβ
    + v.y * (cosγ * cosα + sinγ * sinβ * sinα)
    + v.z * (sinγ * sinβ * cosα - cosγ * sinα)

/-- `rotateCalcZ`: z-row of the combined rotation (`gamma` unused). -/
def rotateCalcZ (v : Vertex R) (sinα cosα sinβ cosβ : R) : R :=
  -v.x * sinβ
    + v.y * cosβ * sinα
    + v.z * cosβ * cosα

/-- `rotate`: the combined closed-form rotation of a vertex. -/
def rotate (v : Vertex R) (sinα cosα sinβ cosβ sinγ cosγ : R) : Vertex R :=
  { x := rotateCalcX v sinα cosα sinβ cosβ sinγ cosγ
    y := rotateCalcY v sinα cosα sinβ cosβ sinγ cosγ
    z := rotateCalcZ v sinα cosα sinβ cosβ }

/-- Elementary rotation matrix about the X axis (pitch), with sine and cosine
of the angle given as values. -/
def Rx (s c : R) : Matrix (Fin 3) (Fin 3) R :=
  !![1, 0, 0; 0, c, -s; 0, s, c]

/-- Elementary rotation matrix about the Y axis (yaw). -/
def Ry (s c : R) : Matrix (Fin 3) (Fin 3) R :=
  !![c, 0, s; 0, 1, 0; -s, 0, c]

/-- Elementary rotation matrix about the Z axis (roll). -/
def Rz (s c : R) : Matrix (Fin 3) (Fin 3) R :=
  !![c, -s, 0; s, c, 0; 0, 0, 1]

/-- A vertex as a column vector. -/
def toVec (v : Vertex R) : Fin 3 → R := ![v.x, v.y, v.z]

/-- Rotation about the X axis as a map (pitch; `Rx` acting on a vertex). -/
def rotX (s c : R) (v : Vertex R) : Vertex R :=
  { x := v.x, y := c * v.y - s * v.z, z := s * v.y + c * v.z }

/-- Rotation about the Y axis as a map (yaw; `Ry` acting on a vertex). -/
def rotY (s c : R) (v : Vertex R) : Vertex R :=
  { x := c * v.x + s * v.z, y := v.y, z := c * v.z - s * v.x }

/-- Rotation about the Z axis as a map (roll; `Rz` acting on a vertex). -/
def rotZ (s c : R) (v : Vertex R) : Vertex R :=
  { x := c * v.x - s * v.y, y := s * v.x + c * v.y, z := v.z }

/-- Squared Euclidean norm of a vertex. -/
def normSq (v : Vertex R) : R := v.x ^ 2 + v.y ^ 2 + v.z ^ 2

lemma rotate_eq_comp (v : Vertex R) (sa ca sb cb sg cg : R) :
    rotate v sa ca sb cb sg cg = rotZ sg cg (rotY sb cb (rotX sa ca v)) := by
  cases v with
  | mk x y z =>
    simp only [rotate, rotateCalcX, rotateCalcY, rotateCalcZ, rotX, rotY, rotZ,
      Vertex.mk.injEq]
    refine ⟨by ring, by ring, by ring⟩

lemma normSq_rotX (v : Vertex R) {s c : R} (h : s ^ 2 + c ^ 2 = 1) :
    normSq (rotX s c v) = normSq v := by
  cases v with
  | mk x y z =>
    simp only [normSq, rotX]
    linear_combination (y ^ 2 + z ^ 2) * h

lemma normSq_rotY (v : Vertex R) {s c : R} (h : s ^ 2 + c ^ 2 = 1) :
    normSq (rotY s c v) = normSq v := by
  cases v with
  | mk x y z =>
    simp only [normSq, rotY]
    linear_combination (x ^ 2 + z ^ 2) * h

lemma normSq_rotZ (v : Vertex R) {s c : R} (h : s ^ 2 + c ^ 2 = 1) :
    normSq (rotZ s c v) = normSq v := by
  cases v with
  | mk x y z =>
    simp only [normSq, rotZ]
    linear_combination (x ^ 2 + y ^ 2) * h

/-- A full rotation preserves the squared norm whenever each sine/cosine pair
satisfies the Pythagorean identity. -/
lemma normSq_rotate (v : Vertex R) {sa ca sb cb sg cg : R}
    (ha : sa ^ 2 + ca ^ 2 = 1) (hb : sb ^ 2 + cb ^ 2 = 1)
    (hg : sg ^ 2 + cg ^ 2 = 1) :
    normSq (rotate v sa ca sb cb sg cg) = normSq v := by
  rw [rotate_eq_comp, normSq_rotZ _ hg, normSq_rotY _ hb, normSq_rotX _ ha]

end Rotation

/-- C3: for every point and every angle triple, the rotation transform returns
`R * p` where `R = Rz(roll) * Ry(yaw) * Rx(pitch)` applied to `p` as a column
vector (pitch first, then yaw, then roll), i.e. the code's single combined
closed-form expansion equals that matrix product. -/
theorem rotate_eq_Rz_Ry_Rx (v : Vertex ℝ) (pitch yaw roll : ℝ) :
    toVec (rotate v (Real.sin pitch) (Real.cos pitch) (Real.sin yaw)
        (Real.cos yaw) (Real.sin roll) (Real.cos roll))
      = Matrix.mulVec
          (Rz (Real.sin roll) (Real.cos roll) * Ry (Real.sin yaw) (Real.cos yaw)
            * Rx (Real.sin pitch) (Real.cos pitch))
          (toVec v) := by
  funext i
  fin_cases i <;>
    simp [toVec, rotate, rotateCalcX, rotateCalcY, rotateCalcZ, Rx, Ry, Rz,
      Matrix.mulVec, Matrix.mul_apply, Fin.sum_univ_three, Matrix.dotProduct] <;>
    ring

/-- C9: rotation by all-zero angles is the identity transform, exactly. -/
theorem rotate_zero_angles_id (v : Vertex ℝ) :
    rotate v (Real.sin 0) (Real.cos 0) (Real.sin 0) (Real.cos 0)
        (Real.sin 0) (Real.cos 0)
      = v := by
  cases v with
  | mk x y z =>
    simp [rotate, rotateCalcX, rotateCalcY, rotateCalcZ]

/-- C6: every sample point of the Geometry Sampler lies on the sphere of
radius 10 (`x² + y² = 100`, `z = 0` before rotation); after the ring's static
yaw rotation (pitch = roll = 0) and the global animation rotation, the
translated depth `q.z + 20` is at least 10 — in particular nonzero — so the
perspective divide `1 / (q.z + 20)` is well-defined and strictly positive. -/
theorem sample_depth_bounded (x y ringYaw pitch yaw roll : ℝ) (q : Vertex ℝ)
    (hq : q = rotate
        (rotate ⟨x, y, 0⟩ (Real.sin 0) (Real.cos 0) (Real.sin ringYaw)
          (Real.cos ringYaw) (Real.sin 0) (Real.cos 0))
        (Real.sin pitch) (Real.cos pitch) (Real.sin yaw) (Real.cos yaw)
        (Real.sin roll) (Real.cos roll))
    (hxy : x ^ 2 + y ^ 2 = 100) :
    10 ≤ q.z + 20 ∧ q.z + 20 ≠ 0 ∧ 0 < 1 / (q.z + 20) := by
  have hnorm : normSq q = 100 := by
    subst hq
    rw [normSq_rotate _ (Real.sin_sq_add_cos_sq pitch)
        (Real.sin_sq_add_cos_sq yaw) (Real.sin_sq_add_cos_sq roll),
      normSq_rotate _ (Real.sin_sq_add_cos_sq 0)
        (Real.sin_sq_add_cos_sq ringYaw) (Real.sin_sq_add_cos_sq 0)]
    simpa [normSq] using hxy
  have hz2 : q.z ^ 2 ≤ 100 := by
    have hx2 : 0 ≤ q.x ^ 2 := sq_nonneg _
    have hy2 : 0 ≤ q.y ^ 2 := sq_nonneg _
    simp only [normSq] at hnorm
    nlinarith
  have hz : -10 ≤ q.z := by nlinarith [sq_nonneg (q.z + 10)]
  refine ⟨by linarith, by intro h0; nlinarith, ?_⟩
  have : (0 : ℝ) < q.z + 20 := by linarith
  exact one_div_pos.mpr this

/-- Witness for C6: the sampler point `(6, 8, 0)` (on the sphere, since
`6² + 8² = 100`) at all-zero angles. -/
theorem sample_depth_bounded_witness :
    (6 : ℝ) ^ 2 + 8 ^ 2 = 100 ∧
      (10 ≤ (rotate
          (rotate ⟨6, 8, 0⟩ (Real.sin 0) (Real.cos 0) (Real.sin 0) (Real.cos 0)
            (Real.sin 0) (Real.cos 0))
          (Real.sin 0) (Real.cos 0) (Real.sin 0) (Real.cos 0) (Real.sin 0)
          (Real.cos 0)).z + 20 ∧
        (rotate
          (rotate ⟨6, 8, 0⟩ (Real.sin 0) (Real.cos 0) (Real.sin 0) (Real.cos 0)
            (Real.sin 0) (Real.cos 0))
          (Real.sin 0) (Real.cos 0) (Real.sin 0) (Real.cos 0) (Real.sin 0)
          (Real.cos 0)).z + 20 ≠ 0 ∧
        0 < 1 / ((rotate
          (rotate ⟨6, 8, 0⟩ (Real.sin 0) (Real.cos 0) (Real.sin 0) (Real.cos 0)
            (Real.sin 0) (Real.cos 0))
          (Real.sin 0) (Real.cos 0) (Real.sin 0) (Real.cos 0) (Real.sin 0)
          (Real.cos 0)).z + 20)) :=
  ⟨by norm_num, sample_depth_bounded 6 8 0 0 0 0 _ rfl (by norm_num)⟩

/-- `static_cast<int>` applied to a (here: rational-valued) float: truncation
toward zero. -/
def truncQ (q : ℚ) : ℤ := if 0 ≤ q then ⌊q⌋ else ⌈q⌉

/-- The two screen-sized global arrays, `frameBuffer` and `depthBuffer`,
as functions on the flattened cell index. -/
structure Canvas where
  frame : Nat → Char
  depth : Nat → ℚ

/-- `clearBuffers`: every glyph reset to a blank, every depth to `0.0f`. -/
def clearBuffers : Canvas := { frame := fun _ => ' ', depth := fun _ => 0 }

/-- `const float Z = vertex.z + Z_OFFSET; const float OOZ = 1 / Z;` -/
def OOZ (v : Vertex ℚ) : ℚ := 1 / (v.z + Z_OFFSET)

/-- `int xProjection = static_cast<int>(SCREEN_DISTANCE * OOZ * vertex.x * 2);
xProjection += static_cast<int>(X_OFFSET);` -/
def xProjection (v : Vertex ℚ) : ℤ :=
  truncQ (SCREEN_DISTANCE * OOZ v * v.x * 2) + truncQ X_OFFSET

/-- `int yProjection = static_cast<int>(SCREEN_DISTANCE * OOZ * -vertex.y);
yProjection += static_cast<int>(Y_OFFSET);` -/
def yProjection (v : Vertex ℚ) : ℤ :=
  truncQ (SCREEN_DISTANCE * OOZ v * -v.y) + truncQ Y_OFFSET

/-- `int idx = xProjection + yProjection * SCREEN_WIDTH;` -/
def idx (v : Vertex ℚ) : ℤ := xProjection v + yProjection v * SCREEN_WIDTH

/-- `writeVertex`: bounds check, then depth test, then overwrite glyph and
depth of the target cell. -/
def writeVertex (s : Canvas) (v : Vertex ℚ) (character : Char) : Canvas :=
  if 0 ≤ idx v ∧ idx v < SCREEN_SIZE ∧ OOZ v > s.depth (idx v).toNat then
    { frame := Function.update s.frame (idx v).toNat character
      depth := Function.update s.depth (idx v).toNat (OOZ v) }
  else s

lemma truncQ_intCast (n : ℤ) : truncQ ((n : ℚ)) = n := by
  unfold truncQ
  split
  · exact Int.floor_intCast n
  · exact Int.ceil_intCast n

lemma truncQ_eval {q : ℚ} {n : ℤ} (h : q = (n : ℚ)) : truncQ q = n :=
  h ▸ truncQ_intCast n

lemma truncQ_X_OFFSET : truncQ X_OFFSET = 75 :=
  truncQ_eval (by norm_num [X_OFFSET, SCREEN_WIDTH])

lemma truncQ_Y_OFFSET : truncQ Y_OFFSET = 25 :=
  truncQ_eval (by norm_num [Y_OFFSET, SCREEN_HEIGHT])

lemma xProjection_eq (v : Vertex ℚ) (a : ℤ)
    (h : SCREEN_DISTANCE * OOZ v * v.x * 2 = (a : ℚ)) :
    xProjection v = a + 75 := by
  rw [xProjection, truncQ_eval h, truncQ_X_OFFSET]

lemma yProjection_eq (v : Vertex ℚ) (b : ℤ)
    (h : SCREEN_DISTANCE * OOZ v * -v.y = (b : ℚ)) :
    yProjection v = b + 25 := by
  rw [yProjection, truncQ_eval h, truncQ_Y_OFFSET]

/-- Projection as the spec's words state it (claim C2): fractional projection
results rounded to the nearest integer, then the half-screen offset added. -/
def spec_xProjection (v : Vertex ℚ) : ℤ :=
  round (SCREEN_DISTANCE * OOZ v * v.x * 2) + (SCREEN_WIDTH : ℤ) / 2

/-- Spec-side screen-space y, with round-to-nearest (claim C2). -/
def spec_yProjection (v : Vertex ℚ) : ℤ :=
  round (SCREEN_DISTANCE * OOZ v * -v.y) + (SCREEN_HEIGHT : ℤ) / 2

/-- C2 counterexample: at the point `(3, 0, 0)` (depth `z' = 20`) the
fractional screen-space x is `35 * (1/20) * 3 * 2 = 10.5`; the code truncates
it to 10 (screen x 85) while the claim's round-to-nearest gives 11
(screen x 86), so the claim, as stated, is false. -/
theorem projection_round_counterexample :
    xProjection ⟨3, 0, 0⟩ = 85 ∧ spec_xProjection ⟨3, 0, 0⟩ = 86 ∧
      xProjection ⟨3, 0, 0⟩ ≠ spec_xProjection ⟨3, 0, 0⟩ := by
  have hx : xProjection ⟨3, 0, 0⟩ = 85 := by
    rw [xProjection, truncQ_X_OFFSET]
    rw [show SCREEN_DISTANCE * OOZ ⟨3, 0, 0⟩ * (Vertex.mk (3:ℚ) 0 0).x * 2
          = 21 / 2 by norm_num [SCREEN_DISTANCE, OOZ, Z_OFFSET]]
    rw [truncQ, if_pos (by norm_num)]
    norm_num
  have hs : spec_xProjection ⟨3, 0, 0⟩ = 86 := by
    rw [spec_xProjection]
    rw [show SCREEN_DISTANCE * OOZ ⟨3, 0, 0⟩ * (Vertex.mk (3:ℚ) 0 0).x * 2
          = 21 / 2 by norm_num [SCREEN_DISTANCE, OOZ, Z_OFFSET]]
    norm_num [round_eq, SCREEN_WIDTH]
  exact ⟨hx, hs, by rw [hx, hs]; decide⟩

/-- C2 amended: for every point with `z + zOffset ≠ 0` the projector computes
`invZ = 1/(z + zOffset)`, screen-space
x = `trunc(screenDistance * invZ * x * 2) + screenWidth/2` and screen-space
y = `trunc(screenDistance * invZ * -y) + screenHeight/2`, where `trunc` is
truncation toward zero (the C++ `static_cast<int>`), not round-to-nearest. -/
theorem projection_truncates (v : Vertex ℚ) (_hz : v.z + Z_OFFSET ≠ 0) :
    xProjection v
        = truncQ (SCREEN_DISTANCE * (1 / (v.z + Z_OFFSET)) * v.x * 2)
          + (SCREEN_WIDTH : ℤ) / 2 ∧
      yProjection v
        = truncQ (SCREEN_DISTANCE * (1 / (v.z + Z_OFFSET)) * -v.y)
          + (SCREEN_HEIGHT : ℤ) / 2 := by
  constructor
  · rw [xProjection, OOZ, truncQ_X_OFFSET]
    norm_num [SCREEN_WIDTH]
  · rw [yProjection, OOZ, truncQ_Y_OFFSET]
    norm_num [SCREEN_HEIGHT]

/-- Witness for C2 (amended) at the point `(3, 0, 0)`, whose translated depth
`20` is nonzero. -/
theorem projection_truncates_witness :
    ((Vertex.mk (3:ℚ) 0 0).z + Z_OFFSET ≠ 0) ∧
      (xProjection ⟨3, 0, 0⟩
          = truncQ (SCREEN_DISTANCE
              * (1 / ((Vertex.mk (3:ℚ) 0 0).z + Z_OFFSET))
              * (Vertex.mk (3:ℚ) 0 0).x * 2)
            + (SCREEN_WIDTH : ℤ) / 2 ∧
        yProjection ⟨3, 0, 0⟩
          = truncQ (SCREEN_DISTANCE
              * (1 / ((Vertex.mk (3:ℚ) 0 0).z + Z_OFFSET))
              * -(Vertex.mk (3:ℚ) 0 0).y)
            + (SCREEN_HEIGHT : ℤ) / 2) :=
  ⟨by norm_num [Z_OFFSET], projection_truncates ⟨3, 0, 0⟩ (by norm_num [Z_OFFSET])⟩

lemma writeVertex_oob (s : Canvas) (v : Vertex ℚ) (character : Char)
    (h : ¬(0 ≤ idx v ∧ idx v < SCREEN_SIZE)) :
    writeVertex s v character = s := by
  rw [writeVertex, if_neg]
  intro hc
  exact h ⟨hc.1, hc.2.1⟩

/-- C5: a point whose flattened index `idx` falls outside `[0, width*height)`
is silently discarded: the canvas (frame buffer and depth buffer alike) is
left completely unchanged. -/
theorem offscreen_write_discarded (s : Canvas) (v : Vertex ℚ) (character : Char)
    (h : ¬(0 ≤ idx v ∧ idx v < SCREEN_SIZE)) :
    writeVertex s v character = s :=
  writeVertex_oob s v character h

lemma idx_offscreen_eval : idx ⟨0, 100, 0⟩ = -22425 := by
  rw [idx,
    xProjection_eq _ 0 (by norm_num [SCREEN_DISTANCE, OOZ, Z_OFFSET]),
    yProjection_eq _ (-175) (by norm_num [SCREEN_DISTANCE, OOZ, Z_OFFSET])]
  norm_num [SCREEN_WIDTH]

/-- Witness for C5: the point `(0, 100, 0)` projects to `idx = -22425`, far
below the grid; writing it to a cleared canvas changes nothing. -/
theorem offscreen_write_discarded_witness :
    ¬(0 ≤ idx ⟨0, 100, 0⟩ ∧ idx ⟨0, 100, 0⟩ < SCREEN_SIZE) ∧
      writeVertex clearBuffers ⟨0, 100, 0⟩ '@' = clearBuffers :=
  ⟨by rw [idx_offscreen_eval]; decide,
    offscreen_write_discarded clearBuffers ⟨0, 100, 0⟩ '@'
      (by rw [idx_offscreen_eval]; decide)⟩

lemma idx_overflow_eval : idx ⟨30, 0, 0⟩ = 3930 := by
  rw [idx,
    xProjection_eq _ 105 (by norm_num [SCREEN_DISTANCE, OOZ, Z_OFFSET]),
    yProjection_eq _ 0 (by norm_num [SCREEN_DISTANCE, OOZ, Z_OFFSET])]
  norm_num [SCREEN_WIDTH]

lemma xProjection_overflow_eval : xProjection ⟨30, 0, 0⟩ = 180 :=
  xProjection_eq _ 105 (by norm_num [SCREEN_DISTANCE, OOZ, Z_OFFSET])

lemma yProjection_overflow_eval : yProjection ⟨30, 0, 0⟩ = 25 :=
  yProjection_eq _ 0 (by norm_num [SCREEN_DISTANCE, OOZ, Z_OFFSET])

/-- C10: the point `(30, 0, 0)` projects to screen-space x = 180, outside
`[0, 150)`, yet its flattened index `3930 = 180 + 25*150` is inside
`[0, 7500)`; the bounds check does not discard it and its glyph is written
into row 26 — the row adjacent to (one below) the intended row 25: horizontal
overflow wraps to the neighbouring row instead of being clipped. -/
theorem horizontal_overflow_wraps :
    (SCREEN_WIDTH : ℤ) ≤ xProjection ⟨30, 0, 0⟩ ∧
      yProjection ⟨30, 0, 0⟩ = 25 ∧
      idx ⟨30, 0, 0⟩ = 3930 ∧
      (0 ≤ idx ⟨30, 0, 0⟩ ∧ idx ⟨30, 0, 0⟩ < SCREEN_SIZE) ∧
      (writeVertex clearBuffers ⟨30, 0, 0⟩ '@').frame 3930 = '@' ∧
      3930 / SCREEN_WIDTH = 26 ∧ 26 = 25 + 1 := by
  refine ⟨by rw [xProjection_overflow_eval]; decide,
    yProjection_overflow_eval, idx_overflow_eval,
    ⟨by rw [idx_overflow_eval]; decide, by rw [idx_overflow_eval]; decide⟩,
    ?_, by decide, rfl⟩
  rw [writeVertex]
  simp only [idx_overflow_eval]
  rw [if_pos]
  · simp [clearBuffers]
  · refine ⟨by decide, by decide, ?_⟩
    norm_num [OOZ, Z_OFFSET, clearBuffers]

/-- Drawing a batch of points: `writeVertex` folded over a list of
(vertex, glyph) pairs, in order. One frame's geometry (`initSphere` at fixed
animation angles) is one such fixed batch. -/
def drawList (s : Canvas) (L : List (Vertex ℚ × Char)) : Canvas :=
  L.foldl (fun t w => writeVertex t w.1 w.2) s

lemma drawList_nil (s : Canvas) : drawList s [] = s := rfl

lemma drawList_cons (s : Canvas) (w : Vertex ℚ × Char)
    (t : List (Vertex ℚ × Char)) :
    drawList s (w :: t) = drawList (writeVertex s w.1 w.2) t := rfl

lemma writeVertex_depth_mono (s : Canvas) (v : Vertex ℚ) (character : Char)
    (j : Nat) : s.depth j ≤ (writeVertex s v character).depth j := by
  rw [writeVertex]
  split
  · next h =>
    simp only [Function.update_apply]
    split
    · next hj => exact le_of_lt (hj ▸ h.2.2)
    · exact le_refl _
  · exact le_refl _

lemma drawList_depth_mono (L : List (Vertex ℚ × Char)) :
    ∀ (s : Canvas) (j : Nat), s.depth j ≤ (drawList s L).depth j := by
  induction L with
  | nil => exact fun s j => le_refl _
  | cons w t ih =>
    intro s j
    rw [drawList_cons]
    exact le_trans (writeVertex_depth_mono s w.1 w.2 j) (ih _ j)

lemma writeVertex_depth_ge (s : Canvas) (v : Vertex ℚ) (character : Char)
    (hin : 0 ≤ idx v ∧ idx v < SCREEN_SIZE) :
    OOZ v ≤ (writeVertex s v character).depth (idx v).toNat := by
  rw [writeVertex]
  split
  · simp
  · next h =>
    have : ¬ OOZ v > s.depth (idx v).toNat := fun hgt => h ⟨hin.1, hin.2, hgt⟩
    exact le_of_not_lt this

lemma drawList_depth_ge (L : List (Vertex ℚ × Char)) :
    ∀ (s : Canvas), ∀ w ∈ L, (0 ≤ idx w.1 ∧ idx w.1 < SCREEN_SIZE) →
      OOZ w.1 ≤ (drawList s L).depth (idx w.1).toNat := by
  induction L with
  | nil => intro s w hw; exact absurd hw (List.not_mem_nil w)
  | cons a t ih =>
    intro s w hw hin
    rw [drawList_cons]
    rcases List.mem_cons.mp hw with rfl | hmem
    · exact le_trans (writeVertex_depth_ge s w.1 w.2 hin)
        (drawList_depth_mono t _ _)
    · exact ih _ w hmem hin

lemma writeVertex_skip (s : Canvas) (v : Vertex ℚ) (character : Char)
    (h : (0 ≤ idx v ∧ idx v < SCREEN_SIZE) →
      OOZ v ≤ s.depth (idx v).toNat) :
    writeVertex s v character = s := by
  rw [writeVertex, if_neg]
  intro hc
  exact absurd hc.2.2 (not_lt.mpr (h ⟨hc.1, hc.2.1⟩))

lemma drawList_skip (L : List (Vertex ℚ × Char)) :
    ∀ (s : Canvas),
      (∀ w ∈ L, (0 ≤ idx w.1 ∧ idx w.1 < SCREEN_SIZE) →
        OOZ w.1 ≤ s.depth (idx w.1).toNat) →
      drawList s L = s := by
  induction L with
  | nil => exact fun s _ => rfl
  | cons a t ih =>
    intro s h
    rw [drawList_cons,
      writeVertex_skip s a.1 a.2 (h a (List.mem_cons_self a t))]
    exact ih s (fun w hw => h w (List.mem_cons_of_mem a hw))

/-- C7: drawing the same batch of geometry a second time, without advancing
the angles, leaves every cell's glyph and stored depth unchanged: rendering a
frame's geometry twice into a freshly cleared canvas yields the identical
canvas that rendering it once yields. -/
theorem drawList_idempotent (L : List (Vertex ℚ × Char)) :
    drawList (drawList clearBuffers L) L = drawList clearBuffers L :=
  drawList_skip L _ (fun w hw hin => drawList_depth_ge L clearBuffers w hw hin)

lemma writeVertex_pos (s : Canvas) (v : Vertex ℚ) (character : Char)
    (hc : 0 ≤ idx v ∧ idx v < SCREEN_SIZE ∧ OOZ v > s.depth (idx v).toNat) :
    writeVertex s v character =
      { frame := Function.update s.frame (idx v).toNat character
        depth := Function.update s.depth (idx v).toNat (OOZ v) } := by
  rw [writeVertex, if_pos hc]

lemma writeVertex_other_cell (s : Canvas) (v : Vertex ℚ) (character : Char)
    (j : Nat) (hne : (idx v).toNat ≠ j) :
    (writeVertex s v character).frame j = s.frame j ∧
      (writeVertex s v character).depth j = s.depth j := by
  rw [writeVertex]
  split
  · constructor <;>
      exact Function.update_noteq (fun h => hne h.symm) _ _
  · exact ⟨rfl, rfl⟩

lemma writeVertex_depth_cases (s : Canvas) (v : Vertex ℚ) (character : Char)
    (j : Nat) :
    (writeVertex s v character).depth j = s.depth j ∨
      (writeVertex s v character).depth j = OOZ v := by
  rw [writeVertex]
  split
  · show Function.update s.depth (idx v).toNat (OOZ v) j = s.depth j ∨
      Function.update s.depth (idx v).toNat (OOZ v) j = OOZ v
    rw [Function.update_apply]
    split
    · exact Or.inr rfl
    · exact Or.inl rfl
  · exact Or.inl rfl

lemma writeVertex_preserve_at (s : Canvas) (v : Vertex ℚ) (character : Char)
    (i0 : Nat)
    (h : (0 ≤ idx v ∧ idx v < SCREEN_SIZE) → (idx v).toNat = i0 →
      OOZ v ≤ s.depth i0) :
    (writeVertex s v character).frame i0 = s.frame i0 ∧
      (writeVertex s v character).depth i0 = s.depth i0 := by
  by_cases hi : (idx v).toNat = i0
  · rw [writeVertex]
    split
    · next hc => exact absurd (hi ▸ hc.2.2) (not_lt.mpr (h ⟨hc.1, hc.2.1⟩ hi))
    · exact ⟨rfl, rfl⟩
  · exact writeVertex_other_cell s v character i0 hi

lemma drawList_preserve_at (L : List (Vertex ℚ × Char)) :
    ∀ (s : Canvas) (i0 : Nat),
      (∀ w ∈ L, (0 ≤ idx w.1 ∧ idx w.1 < SCREEN_SIZE) →
        (idx w.1).toNat = i0 → OOZ w.1 ≤ s.depth i0) →
      (drawList s L).frame i0 = s.frame i0 ∧
        (drawList s L).depth i0 = s.depth i0 := by
  induction L with
  | nil => exact fun s i0 _ => ⟨rfl, rfl⟩
  | cons a t ih =>
    intro s i0 h
    rw [drawList_cons]
    have hhead := writeVertex_preserve_at s a.1 a.2 i0
      (h a (List.mem_cons_self a t))
    have htail := ih (writeVertex s a.1 a.2) i0
      (fun w hw hb hc => hhead.2 ▸ h w (List.mem_cons_of_mem a hw) hb hc)
    exact ⟨htail.1.trans hhead.1, htail.2.trans hhead.2⟩

lemma drawList_best_write (L : List (Vertex ℚ × Char)) (A : Vertex ℚ × Char) :
    ∀ s : Canvas, A ∈ L →
      (0 ≤ idx A.1 ∧ idx A.1 < SCREEN_SIZE) →
      s.depth (idx A.1).toNat < OOZ A.1 →
      (∀ w ∈ L, (0 ≤ idx w.1 ∧ idx w.1 < SCREEN_SIZE) →
        (idx w.1).toNat = (idx A.1).toNat → OOZ w.1 ≤ OOZ A.1) →
      (∀ w ∈ L, (0 ≤ idx w.1 ∧ idx w.1 < SCREEN_SIZE) →
        (idx w.1).toNat = (idx A.1).toNat → OOZ w.1 = OOZ A.1 → w.2 = A.2) →
      (drawList s L).frame ((idx A.1).toNat) = A.2 ∧
        (drawList s L).depth ((idx A.1).toNat) = OOZ A.1 := by
  induction L with
  | nil => intro s hA; exact absurd hA (List.not_mem_nil A)
  | cons a t ih =>
    intro s hA hin hd hmax htie
    rw [drawList_cons]
    by_cases hb : 0 ≤ idx a.1 ∧ idx a.1 < SCREEN_SIZE
    · by_cases hcell : (idx a.1).toNat = (idx A.1).toNat
      · have hle : OOZ a.1 ≤ OOZ A.1 :=
          hmax a (List.mem_cons_self a t) hb hcell
        by_cases heq : OOZ a.1 = OOZ A.1
        · -- the head write achieves the maximal depth: it lands, and the
          -- rest of the batch can never displace it
          have hg : a.2 = A.2 := htie a (List.mem_cons_self a t) hb hcell heq
          have hwrite := writeVertex_pos s a.1 a.2
            ⟨hb.1, hb.2, by rw [heq, hcell]; exact hd⟩
          have hrest := drawList_preserve_at t (writeVertex s a.1 a.2)
            ((idx A.1).toNat)
            (fun w hw hwb hwc => by
              rw [hwrite]
              show OOZ w.1 ≤ Function.update s.depth (idx a.1).toNat
                (OOZ a.1) ((idx A.1).toNat)
              rw [← hcell, Function.update_same, heq]
              exact hmax w (List.mem_cons_of_mem a hw) hwb hwc)
          refine ⟨hrest.1.trans ?_, hrest.2.trans ?_⟩
          · rw [hwrite]
            show Function.update s.frame (idx a.1).toNat a.2
              ((idx A.1).toNat) = A.2
            rw [← hcell, Function.update_same, hg]
          · rw [hwrite]
            show Function.update s.depth (idx a.1).toNat (OOZ a.1)
              ((idx A.1).toNat) = OOZ A.1
            rw [← hcell, Function.update_same, heq]
        · -- the head write is strictly farther than the best write
          have hlt : OOZ a.1 < OOZ A.1 := lt_of_le_of_ne hle heq
          have hAt : A ∈ t := by
            rcases List.mem_cons.mp hA with rfl | h
            · exact absurd hlt (lt_irrefl _)
            · exact h
          have hd2 : (writeVertex s a.1 a.2).depth (idx A.1).toNat
              < OOZ A.1 := by
            rcases writeVertex_depth_cases s a.1 a.2 (idx A.1).toNat with
              h1 | h2
            · rw [h1]; exact hd
            · rw [h2]; exact hlt
          exact ih (writeVertex s a.1 a.2) hAt hin hd2
            (fun w hw => hmax w (List.mem_cons_of_mem a hw))
            (fun w hw => htie w (List.mem_cons_of_mem a hw))
      · -- the head write targets a different cell
        have hAt : A ∈ t := by
          rcases List.mem_cons.mp hA with rfl | h
          · exact absurd rfl hcell
          · exact h
        have hd2 : (writeVertex s a.1 a.2).depth (idx A.1).toNat
            < OOZ A.1 := by
          rw [(writeVertex_other_cell s a.1 a.2 _ hcell).2]
          exact hd
        exact ih (writeVertex s a.1 a.2) hAt hin hd2
          (fun w hw => hmax w (List.mem_cons_of_mem a hw))
          (fun w hw => htie w (List.mem_cons_of_mem a hw))
    · -- the head write is out of bounds and discarded
      have hAt : A ∈ t := by
        rcases List.mem_cons.mp hA with rfl | h
        · exact absurd hin hb
        · exact h
      rw [writeVertex_oob s a.1 a.2 hb]
      exact ih s hAt hin hd
        (fun w hw => hmax w (List.mem_cons_of_mem a hw))
        (fun w hw => htie w (List.mem_cons_of_mem a hw))

/-- C4 counterexample: the point `(15/14, -5/7, -21)` has inverse depth
`invZ = 1/(-21+20) = -1` and projects to cell 0 (in bounds). It is the only —
hence the largest-inverse-depth — point written to that cell since the clear,
and it carries glyph `'@'`; yet after the write the cell still stores the
blank glyph, because the clear sentinel `0` beats any non-positive `invZ`.
The claim as stated (stored character = character of the largest-invZ write)
is therefore false. -/
theorem depth_invariant_counterexample :
    OOZ ⟨15/14, -5/7, -21⟩ = -1 ∧ idx ⟨15/14, -5/7, -21⟩ = 0 ∧
      (writeVertex clearBuffers ⟨15/14, -5/7, -21⟩ '@').frame 0 = ' ' ∧
      ' ' ≠ '@' := by
  have hOOZ : OOZ ⟨15/14, -5/7, -21⟩ = -1 := by
    norm_num [OOZ, Z_OFFSET]
  refine ⟨hOOZ, ?_, ?_, by decide⟩
  · rw [idx,
      xProjection_eq _ (-75)
        (by rw [hOOZ]; norm_num [SCREEN_DISTANCE]),
      yProjection_eq _ (-25)
        (by rw [hOOZ]; norm_num [SCREEN_DISTANCE])]
    norm_num [SCREEN_WIDTH]
  · rw [writeVertex, if_neg]
    · rfl
    · intro hc
      have : (-1 : ℚ) > 0 := hOOZ ▸ hc.2.2
      norm_num at this

/-- C4 amended: at any time since the last clear, a cell's stored character is
the glyph of the (first-written, in case of exactly tied depths) point with
the largest inverse-depth value among the in-bounds writes to that cell,
provided that largest value is strictly positive — writes with `invZ ≤ 0`
never land because the clear sentinel is 0. A write with `invZ` strictly
greater than the stored depth overwrites glyph and depth, any other write is
discarded, and this outcome is order-independent (nearer wins): the batch `L`
below is an arbitrary interleaving. -/
theorem depth_buffer_largest_wins (L : List (Vertex ℚ × Char))
    (A : Vertex ℚ × Char) (hA : A ∈ L)
    (hin : 0 ≤ idx A.1 ∧ idx A.1 < SCREEN_SIZE) (hpos : 0 < OOZ A.1)
    (hmax : ∀ w ∈ L, (0 ≤ idx w.1 ∧ idx w.1 < SCREEN_SIZE) →
      (idx w.1).toNat = (idx A.1).toNat → OOZ w.1 ≤ OOZ A.1)
    (htie : ∀ w ∈ L, (0 ≤ idx w.1 ∧ idx w.1 < SCREEN_SIZE) →
      (idx w.1).toNat = (idx A.1).toNat → OOZ w.1 = OOZ A.1 → w.2 = A.2) :
    (drawList clearBuffers L).frame ((idx A.1).toNat) = A.2 ∧
      (drawList clearBuffers L).depth ((idx A.1).toNat) = OOZ A.1 :=
  drawList_best_write L A clearBuffers hA hin hpos hmax htie

/-- Three writes to cell 3825 (the screen centre column on the centre row) at
depths 1/20, 1/10 and 1/40: the middle one is nearest. -/
def demoWrites : List (Vertex ℚ × Char) :=
  [(⟨0, 0, 0⟩, '*'), (⟨0, 0, -10⟩, '@'), (⟨0, 0, 20⟩, '$')]

lemma idx_axis (z : ℚ) : idx ⟨0, 0, z⟩ = 3825 := by
  rw [idx, xProjection_eq _ 0 (by norm_num), yProjection_eq _ 0 (by norm_num)]
  norm_num [SCREEN_WIDTH]

/-- Witness for C4 (amended): among the three writes of `demoWrites` to cell
3825, the `'@'` at depth 1/10 is nearest and wins, in this interleaving. -/
theorem depth_buffer_largest_wins_witness :
    (drawList clearBuffers demoWrites).frame
        ((idx (⟨0, 0, -10⟩ : Vertex ℚ)).toNat) = '@' ∧
      (drawList clearBuffers demoWrites).depth
        ((idx (⟨0, 0, -10⟩ : Vertex ℚ)).toNat) = OOZ ⟨0, 0, -10⟩ :=
  depth_buffer_largest_wins demoWrites (⟨0, 0, -10⟩, '@')
    (by simp [demoWrites])
    (by rw [idx_axis]; exact ⟨by decide, by decide⟩)
    (by norm_num [OOZ, Z_OFFSET])
    (by
      intro w hw
      fin_cases hw <;> intro _ _ <;> norm_num [OOZ, Z_OFFSET])
    (by
      intro w hw
      fin_cases hw <;> intro _ _ h <;>
        first
          | rfl
          | (norm_num [OOZ, Z_OFFSET] at h))

/-- `renderFramebuffer`: for each cell index `i` in order, print the cell's
glyph when `i % SCREEN_WIDTH` is nonzero, and a newline otherwise
(`i % SCREEN_WIDTH ? frameBuffer[i] : '\n'`). The flushed characters are
modelled as the list printed. -/
def renderFramebuffer (s : Canvas) : List Char :=
  (List.range SCREEN_SIZE).map
    (fun i => if i % SCREEN_WIDTH ≠ 0 then s.frame i else '\n')

/-- The frame format as the spec's words state it (claim C1): a newline
inserted before each row, then the row's full `SCREEN_WIDTH` cells, for
`SCREEN_HEIGHT` rows, reproducing every cell of the frame buffer. -/
def spec_renderFramebuffer (s : Canvas) : List Char :=
  (List.range SCREEN_HEIGHT).flatMap
    (fun r => '\n' ::
      (List.range SCREEN_WIDTH).map (fun c => s.frame (r * SCREEN_WIDTH + c)))

/-- A test canvas with every cell set to `'X'`. -/
def allX : Canvas := { frame := fun _ => 'X', depth := fun _ => 0 }

lemma range_mul_flatMap (h w : Nat) :
    List.range (h * w)
      = (List.range h).flatMap
          (fun r => (List.range w).map (fun c => r * w + c)) := by
  induction h with
  | zero => simp
  | succ n ih =>
    rw [Nat.succ_mul, List.range_add, ih, List.range_succ, List.flatMap_append]
    simp

lemma render_row (s : Canvas) (r : Nat) :
    (List.range SCREEN_WIDTH).map
        (fun c => if (r * SCREEN_WIDTH + c) % SCREEN_WIDTH ≠ 0
          then s.frame (r * SCREEN_WIDTH + c) else '\n')
      = '\n' :: (List.range (SCREEN_WIDTH - 1)).map
          (fun c => s.frame (r * SCREEN_WIDTH + (c + 1))) := by
  have hW : List.range SCREEN_WIDTH
      = 0 :: (List.range (SCREEN_WIDTH - 1)).map Nat.succ :=
    List.range_succ_eq_map (SCREEN_WIDTH - 1)
  rw [hW, List.map_cons, List.map_map]
  refine congrArg₂ List.cons ?_ ?_
  · rw [if_neg (not_not_intro (by simp only [SCREEN_WIDTH]; omega))]
  · refine List.map_congr_left (fun c hc => ?_)
    have hcW : c < SCREEN_WIDTH - 1 := List.mem_range.mp hc
    simp only [Function.comp, SCREEN_WIDTH] at hcW ⊢
    rw [if_pos (by omega)]

/-- C1 amended: the flushed frame consists, for each of the 50 rows, of a
newline followed by the row's cells in columns 1 through 149 — the newline is
printed *instead of* the row's column-0 cell (`i % SCREEN_WIDTH ? cell : -
newline`), so each row shows `SCREEN_WIDTH - 1 = 149` glyphs, the cells of
column 0 are never printed, and the total output is exactly
`SCREEN_SIZE = 7500` characters. -/
theorem renderFramebuffer_rows (s : Canvas) :
    renderFramebuffer s
      = (List.range SCREEN_HEIGHT).flatMap
          (fun r => '\n' :: (List.range (SCREEN_WIDTH - 1)).map
            (fun c => s.frame (r * SCREEN_WIDTH + (c + 1)))) := by
  rw [renderFramebuffer,
    show SCREEN_SIZE = SCREEN_HEIGHT * SCREEN_WIDTH by
      rw [SCREEN_SIZE]; exact Nat.mul_comm _ _,
    range_mul_flatMap, List.map_flatMap]
  refine congrArg _ (funext fun r => ?_)
  rw [List.map_map]
  simpa [Function.comp] using render_row s r

set_option maxRecDepth 100000 in
/-- C1 counterexample: on the all-`'X'` canvas the characters actually
flushed differ from the spec's format (newline inserted *before* each full
150-character row): the code prints only 149 of each row's cells. -/
theorem render_format_counterexample :
    renderFramebuffer allX ≠ spec_renderFramebuffer allX := by decide

/-- C8: the per-frame angle advance increments pitch by 0.005, yaw by 0.005
and roll by 0.001 radians and touches nothing else of the animation state;
the pitch and yaw deltas are equal and the roll delta is exactly five times
smaller. -/
theorem updateAngles_deltas (a : Angles) :
    updateAngles a
        = { pitch := a.pitch + 0.005, yaw := a.yaw + 0.005,
            roll := a.roll + 0.001 } ∧
      PITCH_DELTA = YAW_DELTA ∧ PITCH_DELTA = 5 * ROLL_DELTA := by
  refine ⟨?_, by norm_num [PITCH_DELTA, YAW_DELTA],
    by norm_num [PITCH_DELTA, ROLL_DELTA]⟩
  rw [updateAngles]
  norm_num [PITCH_DELTA, YAW_DELTA, ROLL_DELTA]

end HollowSphere
